import Mathlib

/-!
Verification of the job execution engine of the queue-wizard repository
(`src/lib/worker.ts`), shallowly embedded in Lean 4.

The embedding mirrors the source file:
* configuration constants `maxConcurrent`, `maxAttempts`;
* the `Job` record (Prisma `Job` model) with a status enumeration;
* `claimNextJob` — the atomic SQL claim (select minimal pending job by
  `priority ASC, createdAt ASC`, set `processing`, increment `attempts`);
* `executeJob` — modelled as a pure function from the job and an
  environment (outcomes of the host-level effects: header/body JSON
  parsing, the `fetch` call, JSON re-parsing of the response) to the
  single job-store write it performs;
* the dispatcher / poller state machines (`runTick`, `startWorker`,
  `stopWorker`) as step relations on explicit state records.
-/

namespace QueueWizard

/-- Configuration constant `maxConcurrent` from worker.ts line 7. -/
def maxConcurrent : Nat := 5

/-- Configuration constant `maxAttempts` from worker.ts line 11. -/
def maxAttempts : Nat := 3

/-- Job status values stored in the `status` column: `pending`,
`processing`, `completed`, `failed`. -/
inductive JobStatus where
  | pending
  | processing
  | completed
  | failed
deriving DecidableEq, Repr

/-- The Prisma `Job` record as read and written by the worker.
Timestamps are modelled as natural numbers. -/
structure Job where
  id : Nat
  priority : Int
  method : String
  url : String
  headers : String
  body : Option String
  status : JobStatus
  attempts : Nat
  result : Option String
  errorMessage : Option String
  createdAt : Nat
  updatedAt : Nat
  userId : Nat
deriving DecidableEq, Repr

/-! ### The atomic claim (`claimNextJob`, worker.ts lines 35–64) -/

/-- The SQL ordering `priority ASC, createdAt ASC`: job `a` sorts no
later than job `b`. -/
def jobLE (a b : Job) : Prop :=
  a.priority < b.priority ∨ (a.priority = b.priority ∧ a.createdAt ≤ b.createdAt)

instance (a b : Job) : Decidable (jobLE a b) := by
  unfold jobLE; infer_instance

/-- The subselect `SELECT id FROM Job WHERE status = 'pending' ORDER BY
priority ASC, createdAt ASC LIMIT 1`: choose a pending job minimal under
`jobLE` (earlier rows win ties). -/
def selectPending : List Job → Option Job
  | [] => none
  | j :: rest =>
    if j.status = .pending then
      match selectPending rest with
      | none => some j
      | some b => if jobLE j b then some j else some b
    else selectPending rest

/-- The `UPDATE ... SET status = 'processing', attempts = attempts + 1,
updatedAt = CURRENT_TIMESTAMP` applied to the selected row. -/
def applyClaim (now : Nat) (j : Job) : Job :=
  { j with status := .processing, attempts := j.attempts + 1, updatedAt := now }

/-- The whole `claimNextJob` operation on a job-store state: returns the
claimed record (post-update, as the SQL `RETURNING` clause does) and the
updated store, or `none` and the unchanged store. -/
def claimNextJob (now : Nat) (s : List Job) : Option Job × List Job :=
  match selectPending s with
  | none => (none, s)
  | some j =>
    let j' := applyClaim now j
    (some j', s.map fun x => if x.id = j.id then j' else x)

/-! ### The executor (`executeJob`, worker.ts lines 66–153) -/

/-- Retry decision embedded in the failure branch of `executeJob`
(worker.ts lines 132–137): `nextAttempts = job.attempts + 1`, then
`status = nextAttempts < maxAttempts ? "pending" : "failed"`.
`attemptsAfterClaim` is `job.attempts` of the claimed record, i.e. the
value already incremented by the claim. -/
def retryStatus (attemptsAfterClaim : Nat) : JobStatus :=
  if attemptsAfterClaim + 1 < maxAttempts then .pending else .failed

/-- Substring test on strings (JavaScript `String.prototype.includes`),
via the infix relation on the underlying character lists. -/
def strSub (needle hay : String) : Bool :=
  decide (needle.data <:+: hay.data)

/-- The outbound request assembled by `executeJob` before calling
`fetch` (worker.ts lines 91–96). -/
structure OutboundRequest where
  method : String
  url : String
  headers : List (String × String)
  body : Option String
deriving DecidableEq, Repr

/-- A fetch response as observed by the worker: `response.status`,
`response.headers.get("content-type")`, and `await response.text()`. -/
structure HttpResponse where
  status : Nat
  contentTypeHeader : Option String
  text : String
deriving DecidableEq, Repr

/-- JavaScript record assignment `m[k] = v` on a header record encoded
as an association list with unique keys: replace the value if the key is
present, otherwise append the new entry. -/
def recordSet (m : List (String × String)) (k v : String) : List (String × String) :=
  if (m.lookup k).isSome then m.map (fun p => if p.1 = k then (k, v) else p)
  else m ++ [(k, v)]

/-- JavaScript `String.prototype.toLowerCase` on header names (ASCII),
written over the character list so it evaluates by `decide`. -/
def lowerStr (s : String) : String := ⟨s.data.map Char.toLower⟩

/-- The check `Object.keys(headers).some((key) => key.toLowerCase() ===
"content-type")` (worker.ts line 77). -/
def hasContentType (m : List (String × String)) : Bool :=
  m.any fun p => lowerStr p.1 = "content-type"

/-- Header defaulting, worker.ts lines 76–85: copy the parsed headers;
if a body is present and no case-insensitive `content-type` key exists,
set `content-type` to `application/json`; if a body is present, set
`accept` to `headers["accept"] ?? "application/json"` (the exact key
`accept`; assigning the existing value back leaves the record
unchanged). -/
def buildHeaders (raw : List (String × String)) (body : Option String) :
    List (String × String) :=
  let h1 := if body.isSome ∧ ¬hasContentType raw then
      recordSet raw "content-type" "application/json"
    else raw
  if body.isSome then
    match h1.lookup "accept" with
    | some _ => h1
    | none => recordSet h1 "accept" "application/json"
  else h1

/-- The request passed to `fetch` (worker.ts lines 91–96): the job's
method and url, the defaulted headers, and
`body && job.method !== "GET" ? body : undefined`. -/
def buildRequest (job : Job) (raw : List (String × String)) (body : Option String) :
    OutboundRequest :=
  { method := job.method
    url := job.url
    headers := buildHeaders raw body
    body := match body with
      | some b => if job.method ≠ "GET" then some b else none
      | none => none }

/-- Outcomes of the host-level effects inside one `executeJob` run.
`parsedHeaders` and `parsedBody` are the results of `parseHeaders` /
`parseBody` (errors carry the thrown message); `fetch` maps the built
request to a response or a thrown error (network failure or timeout
abort); `jsonReparse` is `JSON.stringify(JSON.parse(text))` on the
response text, `none` when parsing throws. -/
structure ExecEnv where
  parsedHeaders : Except String (List (String × String))
  parsedBody : Except String (Option String)
  fetch : OutboundRequest → Except String HttpResponse
  jsonReparse : String → Option String

/-- `response.ok`: status in the inclusive range 200–299. -/
def respOk (status : Nat) : Bool :=
  200 ≤ status ∧ status ≤ 299

/-- The error message thrown for a non-2xx response (worker.ts line
101). -/
def httpFailureMessage (status : Nat) (text : String) : String :=
  "Request failed with status " ++ toString status ++ ": " ++ text

/-- The `try` block of `executeJob` (worker.ts lines 73–125): parse
headers and body, build and issue the request, throw on a non-2xx
response, and on success compute the stored result (re-serialized JSON
when the response content type includes `application/json` and the text
parses, otherwise the raw text). -/
def tryExec (job : Job) (env : ExecEnv) : Except String String :=
  match env.parsedHeaders with
  | .error e => .error e
  | .ok raw =>
    match env.parsedBody with
    | .error e => .error e
    | .ok body =>
      match env.fetch (buildRequest job raw body) with
      | .error e => .error e
      | .ok resp =>
        if respOk resp.status then
          let contentType := resp.contentTypeHeader.getD ""
          if strSub "application/json" contentType then
            match env.jsonReparse resp.text with
            | some s => .ok s
            | none => .ok resp.text
          else .ok resp.text
        else .error (httpFailureMessage resp.status resp.text)

/-- The single job-store write performed by one `executeJob` run. -/
inductive StoreWrite where
  | complete (result : String)
  | failWrite (status : JobStatus) (errorMessage : String)
deriving DecidableEq, Repr

/-- The write `executeJob` performs for a claimed job under environment
`env`: the success branch writes `completed` with the result (worker.ts
lines 116–123); the `catch` branch writes `retryStatus job.attempts`
with the error message (worker.ts lines 129–144). -/
def executeJobWrite (job : Job) (env : ExecEnv) : StoreWrite :=
  match tryExec job env with
  | .ok r => .complete r
  | .error msg => .failWrite (retryStatus job.attempts) msg

/-- Applying a store write to the job row: `complete r` sets
`status = completed, result = r, errorMessage = null`; `failWrite st m`
sets `status = st, errorMessage = m, result = null` and increments
`attempts` once more (`attempts: { increment: 1 }`, worker.ts lines
140–142). -/
def applyWrite (now : Nat) (j : Job) : StoreWrite → Job
  | .complete r =>
    { j with status := .completed, result := some r, errorMessage := none,
             updatedAt := now }
  | .failWrite st m =>
    { j with status := st, errorMessage := some m, result := none,
             attempts := j.attempts + 1, updatedAt := now }

/-- The effect pipeline of one run up to the response: header parse,
body parse, then the fetch — exactly the prefix of `tryExec` before
response classification. -/
def fetchOutcome (job : Job) (env : ExecEnv) : Except String HttpResponse :=
  match env.parsedHeaders with
  | .error e => .error e
  | .ok raw =>
    match env.parsedBody with
    | .error e => .error e
    | .ok body => env.fetch (buildRequest job raw body)

/-! ### Single-job engine trace

One job owned by the single-process engine: a `pending` job may be
claimed; a `processing` job is owned by exactly one executor, which got
the claimed record and performs exactly one write computed by
`executeJobWrite`. -/

/-- One engine operation on a single job row. -/
inductive EngineStep : Job → Job → Prop
  | claim (now : Nat) (j : Job) :
      j.status = .pending → EngineStep j (applyClaim now j)
  | write (now : Nat) (j : Job) (env : ExecEnv) :
      j.status = .processing → EngineStep j (applyWrite now j (executeJobWrite j env))

/-- Reachability under engine steps. -/
def EngineReach (a b : Job) : Prop :=
  Relation.ReflTransGen EngineStep a b

/-- Inductive invariant of the single-job engine trace for a job the
API layer created with `attempts = 0` (with the source's
`maxAttempts = 3`): each claim adds one attempt and each failure write
adds another, so a pending job has 0 or 2 attempts, an owned or
completed one has 1 or 3, and a failed one has 4 with its error message
set. -/
def engineInv (j : Job) : Prop :=
  (j.status = .pending → j.attempts = 0 ∨ j.attempts = 2) ∧
  (j.status = .processing → j.attempts = 1 ∨ j.attempts = 3) ∧
  (j.status = .completed → j.attempts = 1 ∨ j.attempts = 3) ∧
  (j.status = .failed → j.attempts = 4 ∧ j.errorMessage ≠ none)

/-! ### Concrete instances used to exercise the definitions -/

/-- A freshly created job (the API layer inserts jobs with
`status = pending, attempts = 0`) whose target always answers 500. -/
def pendJob : Job :=
  { id := 7, priority := 0, method := "GET", url := "http://example.test/fail",
    headers := "\x7b\x7d", body := none, status := .pending, attempts := 0,
    result := none, errorMessage := none, createdAt := 0, updatedAt := 0, userId := 1 }

/-- Execution environment of a target that always answers HTTP 500. -/
def env500 : ExecEnv :=
  { parsedHeaders := .ok []
    parsedBody := .ok none
    fetch := fun _ => .ok { status := 500, contentTypeHeader := none,
                            text := "Internal Server Error" }
    jsonReparse := fun _ => none }

/-- Execution environment of a target that answers 200 with a JSON
content type but a body that does not parse as JSON. -/
def envBadJson : ExecEnv :=
  { parsedHeaders := .ok []
    parsedBody := .ok none
    fetch := fun _ => .ok { status := 200,
                            contentTypeHeader := some "application/json; charset=utf-8",
                            text := "not-json" }
    jsonReparse := fun _ => none }

/-- The engine trace of `pendJob` against the always-500 target:
first claim. -/
def trace1 : Job := applyClaim 1 pendJob

/-- First failure write. -/
def trace2 : Job := applyWrite 2 trace1 (executeJobWrite trace1 env500)

/-- Second claim. -/
def trace3 : Job := applyClaim 3 trace2

/-- Second failure write. -/
def trace4 : Job := applyWrite 4 trace3 (executeJobWrite trace3 env500)

/-- A GET job carrying a (ignored) body. -/
def jobGet : Job :=
  { pendJob with id := 8, method := "GET", body := some "1" }

/-- A POST job carrying a body. -/
def jobPost : Job :=
  { pendJob with id := 9, method := "POST", body := some "1" }

/-- Priority-5 job A, inserted first. -/
def jobA : Job :=
  { pendJob with id := 10, priority := 5, createdAt := 0 }

/-- Priority-1 job B, inserted second. -/
def jobB : Job :=
  { pendJob with id := 11, priority := 1, createdAt := 1 }

/-- Priority-1 job C, inserted third. -/
def jobC : Job :=
  { pendJob with id := 12, priority := 1, createdAt := 2 }

/-- The store holding A, B, C in insertion order. -/
def store0 : List Job := [jobA, jobB, jobC]

/-! ### Dispatcher (`runTick` + the in-flight counter, worker.ts
lines 14, 70, 150–152, 155–177)

Counter view of the poll/dispatch/execute interplay. `launch` is one
iteration of the `runTick` loop: the guard `currentWorkers <
maxConcurrent` is checked, a pending job is claimed, and `executeJob`
increments `currentWorkers` synchronously before its first suspension
point; only one tick loop runs at a time (`isTickRunning`), and between
the guard and the increment the counter can only decrease, so the guard
still holds at the increment. `finish` is the unconditional `finally`
decrement `currentWorkers = Math.max(0, currentWorkers - 1)`, taken on
every exit path of `executeJob` (success, failure, or unexpected
error); natural-number subtraction models the `Math.max` clamp. -/

/-- Dispatcher state: number of still-pending jobs and the
`currentWorkers` in-flight counter. -/
structure DispatchState where
  pending : Nat
  inFlight : Nat
deriving DecidableEq, Repr

/-- One dispatcher transition. -/
inductive DispatchStep : DispatchState → DispatchState → Prop
  | launch (s : DispatchState) :
      s.inFlight < maxConcurrent → 0 < s.pending →
      DispatchStep s ⟨s.pending - 1, s.inFlight + 1⟩
  | finish (s : DispatchState) :
      DispatchStep s ⟨s.pending, s.inFlight - 1⟩

/-! ### Poller start/stop (`startWorker` / `stopWorker`, worker.ts
lines 179–208) -/

/-- Poller state: the number of live interval timers, whether the
`poller` variable holds a timer handle, and the `isTickRunning` flag. -/
structure PollerState where
  timers : Nat
  hasPoller : Bool
  isTickRunning : Bool
deriving DecidableEq, Repr

/-- `startWorker`: if `poller` is set, return; otherwise create an
interval timer and store its handle. -/
def startWorker (s : PollerState) : PollerState :=
  if s.hasPoller then s
  else { timers := s.timers + 1, hasPoller := true, isTickRunning := s.isTickRunning }

/-- `stopWorker`: if `poller` is not set, return; otherwise clear the
interval timer, null the handle and reset `isTickRunning`. -/
def stopWorker (s : PollerState) : PollerState :=
  if s.hasPoller then { timers := s.timers - 1, hasPoller := false, isTickRunning := false }
  else s

/-- Timer-count invariant: the handle is set exactly when one timer is
live. -/
def timerInv (s : PollerState) : Prop :=
  s.timers = if s.hasPoller then 1 else 0

/-! ## Theorems -/

/-- Claim C3, counterexample: at `attemptsAfterClaim = 2` with
`maxAttempts = 3` the code marks the job terminally failed
(`retryStatus 2 = failed` because the failure branch compares
`job.attempts + 1 < maxAttempts`), although `2 < 3`, so the claimed
decision rule `requeue iff attemptsAfterClaim < maxAttempts` is false. -/
theorem retry_decision_cex :
    ¬ (retryStatus 2 = JobStatus.pending ↔ 2 < maxAttempts) := by decide

/-- Claim C3 (amended): the retry decision is a function of the
post-claim attempts value and `maxAttempts` only, namely `retryStatus`;
it requeues (writes `pending`) iff `attemptsAfterClaim + 1 <
maxAttempts`, otherwise it writes `failed`, and the failure write of
`executeJob` always carries exactly this status. -/
theorem retry_decision (a : Nat) (job : Job) (env : ExecEnv) :
    (retryStatus a = .pending ↔ a + 1 < maxAttempts) ∧
    (retryStatus a = .failed ↔ ¬ a + 1 < maxAttempts) ∧
    (∀ st m, executeJobWrite job env = .failWrite st m → st = retryStatus job.attempts) := by
  refine ⟨?_, ?_, ?_⟩
  · unfold retryStatus
    by_cases h : a + 1 < maxAttempts <;> simp [h]
  · unfold retryStatus
    by_cases h : a + 1 < maxAttempts <;> simp [h]
  · intro st m h
    unfold executeJobWrite at h
    cases htry : tryExec job env <;> rw [htry] at h <;> simp_all

/-- Witness for `retry_decision` at the concrete second claim of the
always-500 trace. -/
theorem retry_decision_witness :
    JobStatus.failed = retryStatus trace3.attempts :=
  (retry_decision 0 trace3 env500).2.2 JobStatus.failed
    (httpFailureMessage 500 "Internal Server Error") (by decide)

/-- Claim C9: a claimed job with method `GET` is sent with no request
body even when a body value is present, and for any other method the
(re-serialized) body value is sent unchanged. -/
theorem get_request_body (job : Job) (raw : List (String × String)) (body : Option String) :
    (job.method = "GET" → (buildRequest job raw body).body = none) ∧
    (job.method ≠ "GET" → (buildRequest job raw body).body = body) := by
  constructor
  · intro h
    unfold buildRequest
    cases body <;> simp [h]
  · intro h
    unfold buildRequest
    cases body <;> simp [h]

/-- Witness for `get_request_body`: a GET job with a body sends none, a
POST job sends its body. -/
theorem get_request_body_witness :
    (buildRequest jobGet [] (some "1")).body = none ∧
    (buildRequest jobPost [] (some "1")).body = some "1" :=
  ⟨(get_request_body jobGet [] (some "1")).1 (by decide),
   (get_request_body jobPost [] (some "1")).2 (by decide)⟩

/-- Claim C10: a 2xx response whose content type includes
`application/json` but whose text fails to parse as JSON is stored as
the raw response text and the job is still written `completed` (the
parse failure is swallowed by the inner `catch`). -/
theorem json_parse_fallback (job : Job) (env : ExecEnv) (now : Nat)
    (raw : List (String × String)) (body : Option String) (resp : HttpResponse)
    (hh : env.parsedHeaders = .ok raw) (hb : env.parsedBody = .ok body)
    (hf : env.fetch (buildRequest job raw body) = .ok resp)
    (hok : respOk resp.status = true)
    (hct : strSub "application/json" (resp.contentTypeHeader.getD "") = true)
    (hjson : env.jsonReparse resp.text = none) :
    executeJobWrite job env = .complete resp.text ∧
    (applyWrite now job (executeJobWrite job env)).status = .completed ∧
    (applyWrite now job (executeJobWrite job env)).result = some resp.text := by
  have h1 : tryExec job env = .ok resp.text := by
    simp [tryExec, hh, hb, hf, hok, hct, hjson]
  refine ⟨?_, ?_, ?_⟩ <;> simp [executeJobWrite, h1, applyWrite]

/-- Witness for `json_parse_fallback` on the concrete bad-JSON
environment. -/
theorem json_parse_fallback_witness :
    executeJobWrite jobGet envBadJson = .complete "not-json" ∧
    (applyWrite 5 jobGet (executeJobWrite jobGet envBadJson)).status = .completed ∧
    (applyWrite 5 jobGet (executeJobWrite jobGet envBadJson)).result = some "not-json" :=
  json_parse_fallback jobGet envBadJson 5 [] none
    { status := 200, contentTypeHeader := some "application/json; charset=utf-8",
      text := "not-json" }
    rfl rfl rfl (by decide) (by decide) rfl

/-- Exact-key lookup is unaffected by appending an entry under a
different key. -/
theorem lookup_append_ne (l : List (String × String)) (k kk v : String)
    (h : (k == kk) = false) : (l ++ [(kk, v)]).lookup k = l.lookup k := by
  induction l with
  | nil => simp [List.lookup, h]
  | cons p t ih =>
    rcases p with ⟨pk, pv⟩
    by_cases hk : (k == pk) = true <;> simp [List.lookup, hk, ih]

/-- When no header key lowercases to `content-type`, the exact key
`content-type` is absent. -/
theorem lookup_ct_none (raw : List (String × String))
    (h : hasContentType raw = false) : raw.lookup "content-type" = none := by
  induction raw with
  | nil => rfl
  | cons p t ih =>
    rcases p with ⟨pk, pv⟩
    simp only [hasContentType, List.any_cons, Bool.or_eq_false_iff] at h
    obtain ⟨h1, h2⟩ := h
    have hk : (("content-type" : String) == pk) = false := by
      rw [beq_eq_false_iff_ne]
      intro hh
      rw [← hh] at h1
      rw [decide_eq_false_iff_not] at h1
      exact h1 (by decide)
    simp only [List.lookup, hk]
    exact ih h2

/-- Assigning under an absent key appends the entry. -/
theorem recordSet_absent (m : List (String × String)) (k v : String)
    (h : m.lookup k = none) : recordSet m k v = m ++ [(k, v)] := by
  simp [recordSet, h]

/-- Claim C7: for a job with a non-absent body, the supplied headers are
kept verbatim (never overwritten — they form a prefix of the outgoing
header record), a `content-type: application/json` entry is appended
exactly when no supplied key equals `content-type` case-insensitively,
and an `accept: application/json` entry is appended exactly when the key
`accept` is not already set; with no body the headers pass through
unchanged. -/
theorem header_defaults (raw : List (String × String)) (b : String) :
    buildHeaders raw (some b) =
      (raw ++ (if hasContentType raw then [] else [("content-type", "application/json")]))
        ++ (if (raw.lookup "accept").isSome then [] else [("accept", "application/json")]) ∧
    buildHeaders raw none = raw := by
  constructor
  · by_cases hct : hasContentType raw = true
    · have e1 : buildHeaders raw (some b) =
          (match raw.lookup "accept" with
           | some _ => raw
           | none => recordSet raw "accept" "application/json") := by
        unfold buildHeaders
        simp [hct]
      rw [e1]
      cases hacc : raw.lookup "accept" with
      | none => simp [hct, hacc, recordSet_absent raw "accept" "application/json" hacc]
      | some v => simp [hct, hacc]
    · have hct2 : hasContentType raw = false := by simpa using hct
      have hctl : raw.lookup "content-type" = none := lookup_ct_none raw hct2
      have e2 : buildHeaders raw (some b) =
          (match (raw ++ [("content-type", "application/json")]).lookup "accept" with
           | some _ => raw ++ [("content-type", "application/json")]
           | none => recordSet (raw ++ [("content-type", "application/json")])
                       "accept" "application/json") := by
        unfold buildHeaders
        simp [hct2, recordSet_absent raw "content-type" "application/json" hctl]
      have hacc2 : (raw ++ [("content-type", "application/json")]).lookup "accept"
          = raw.lookup "accept" :=
        lookup_append_ne raw "accept" "content-type" "application/json" (by decide)
      rw [e2, hacc2]
      cases hacc : raw.lookup "accept" with
      | none =>
        have h3 : (raw ++ [("content-type", "application/json")]).lookup "accept" = none := by
          rw [hacc2, hacc]
        simp [hct2, hacc, recordSet_absent _ "accept" "application/json" h3]
      | some v => simp [hct2, hacc]
  · simp [buildHeaders]

/-- Witness-style evaluation of `header_defaults` at a concrete header
record: a capitalized `Accept` does not block the exact-key `accept`
default, while a capitalized `Content-Type` blocks the content-type
default. -/
theorem header_defaults_witness :
    buildHeaders [("Accept", "text/html")] (some "1") =
      [("Accept", "text/html"), ("content-type", "application/json"),
       ("accept", "application/json")] ∧
    buildHeaders [("Content-Type", "text/html")] (some "1") =
      [("Content-Type", "text/html"), ("accept", "application/json")] :=
  ⟨(header_defaults [("Accept", "text/html")] "1").1,
   (header_defaults [("Content-Type", "text/html")] "1").1⟩

/-- Success of `tryExec` is exactly success of the effect pipeline with
a 2xx status. -/
theorem tryExec_ok_iff (job : Job) (env : ExecEnv) :
    (∃ r, tryExec job env = .ok r) ↔
    (∃ resp, fetchOutcome job env = .ok resp ∧ respOk resp.status = true) := by
  unfold tryExec fetchOutcome
  cases hh : env.parsedHeaders with
  | error e => simp
  | ok raw =>
    cases hb : env.parsedBody with
    | error e => simp
    | ok body =>
      cases hf : env.fetch (buildRequest job raw body) with
      | error e =>
        simp only [hf]
        simp
      | ok resp =>
        simp only [hf]
        by_cases hok : respOk resp.status = true
        · simp only [hok, if_true]
          constructor
          · intro _
            exact ⟨resp, rfl, hok⟩
          · intro _
            by_cases hct : strSub "application/json" (resp.contentTypeHeader.getD "") = true
            · cases hj : env.jsonReparse resp.text with
              | none => exact ⟨resp.text, by simp [hct, hj]⟩
              | some s => exact ⟨s, by simp [hct, hj]⟩
            · exact ⟨resp.text, by simp [hct]⟩
        · have hok2 : respOk resp.status = false := by simpa using hok
          simp [hok2]

/-- Claim C5: every execution of a claimed job produces exactly one
store write — either a complete write (status `completed`, result set,
error message cleared) or a failure write carrying the retry-policy
status and the error message — and the complete write happens exactly
when the effect pipeline (header parse, body parse, fetch) succeeded
with a 2xx response; every other outcome (malformed header data, body
parse error, network error, timeout, non-2xx) yields the failure write,
so no outcome is unreported and no error escapes. -/
theorem execute_single_write (job : Job) (env : ExecEnv) :
    ((∃ r, executeJobWrite job env = .complete r ∧
        ∀ now, (applyWrite now job (.complete r)).status = .completed ∧
               (applyWrite now job (.complete r)).result = some r ∧
               (applyWrite now job (.complete r)).errorMessage = none) ∨
     (∃ m, executeJobWrite job env = .failWrite (retryStatus job.attempts) m ∧
        ∀ now, (applyWrite now job (.failWrite (retryStatus job.attempts) m)).errorMessage
                 = some m ∧
               (applyWrite now job (.failWrite (retryStatus job.attempts) m)).result
                 = none)) ∧
    ((∃ r, executeJobWrite job env = .complete r) ↔
     (∃ resp, fetchOutcome job env = .ok resp ∧ respOk resp.status = true)) := by
  constructor
  · cases htry : tryExec job env with
    | ok r =>
      left
      exact ⟨r, by simp [executeJobWrite, htry], fun now => by simp [applyWrite]⟩
    | error m =>
      right
      exact ⟨m, by simp [executeJobWrite, htry], fun now => by simp [applyWrite]⟩
  · rw [← tryExec_ok_iff]
    unfold executeJobWrite
    cases htry : tryExec job env <;> simp

/-- Witness for `execute_single_write`: on the concrete bad-JSON
environment the complete-write side of the dichotomy holds. -/
theorem execute_single_write_witness :
    ∃ r, executeJobWrite jobPost envBadJson = .complete r :=
  (execute_single_write jobPost envBadJson).2.mpr
    ⟨{ status := 200, contentTypeHeader := some "application/json; charset=utf-8",
       text := "not-json" }, rfl, by decide⟩

/-- Reflexivity of the claim ordering. -/
theorem jobLE_refl (a : Job) : jobLE a a := by
  unfold jobLE
  omega

/-- Transitivity of the claim ordering. -/
theorem jobLE_trans (a b c : Job) (h1 : jobLE a b) (h2 : jobLE b c) : jobLE a c := by
  unfold jobLE at *
  omega

/-- Totality of the claim ordering. -/
theorem jobLE_total (a b : Job) : jobLE a b ∨ jobLE b a := by
  unfold jobLE
  omega

/-- Selection returns nothing exactly when no pending job exists. -/
theorem selectPending_none_iff (s : List Job) :
    selectPending s = none ↔ ∀ j ∈ s, j.status ≠ .pending := by
  induction s with
  | nil => simp [selectPending]
  | cons a t ih =>
    unfold selectPending
    by_cases ha : a.status = .pending
    · cases hrb : selectPending t with
      | none => simp [ha]
      | some b => by_cases hle : jobLE a b <;> simp [ha, hle]
    · simp [ha, ih]

/-- Selection returns a pending job that is minimal under the order
`priority ascending, then createdAt ascending`. -/
theorem selectPending_spec (s : List Job) (j : Job) (h : selectPending s = some j) :
    j ∈ s ∧ j.status = .pending ∧ ∀ k ∈ s, k.status = .pending → jobLE j k := by
  induction s generalizing j with
  | nil => simp [selectPending] at h
  | cons a t ih =>
    unfold selectPending at h
    by_cases ha : a.status = .pending
    · rw [if_pos ha] at h
      cases hrb : selectPending t with
      | none =>
        rw [hrb] at h
        have hj : a = j := Option.some.inj h
        rw [← hj]
        refine ⟨List.mem_cons_self a t, ha, ?_⟩
        intro k hk hkp
        rcases List.mem_cons.mp hk with hka | hk
        · rw [hka]
          exact jobLE_refl a
        · exact absurd hkp ((selectPending_none_iff t).mp hrb k hk)
      | some b =>
        rw [hrb] at h
        have h2 : (if jobLE a b then some a else some b) = some j := h
        by_cases hle : jobLE a b
        · rw [if_pos hle] at h2
          have hj : a = j := Option.some.inj h2
          rw [← hj]
          refine ⟨List.mem_cons_self a t, ha, ?_⟩
          intro k hk hkp
          rcases List.mem_cons.mp hk with hka | hk
          · rw [hka]
            exact jobLE_refl a
          · obtain ⟨_, _, hmin⟩ := ih b hrb
            exact jobLE_trans a b k hle (hmin k hk hkp)
        · rw [if_neg hle] at h2
          have hj : b = j := Option.some.inj h2
          rw [← hj]
          obtain ⟨hbmem, hbp, hmin⟩ := ih b hrb
          refine ⟨List.mem_cons_of_mem a hbmem, hbp, ?_⟩
          intro k hk hkp
          rcases List.mem_cons.mp hk with hka | hk
          · rw [hka]
            exact (jobLE_total a b).resolve_left hle
          · exact hmin k hk hkp
    · rw [if_neg ha] at h
      obtain ⟨hm, hp, hmin⟩ := ih j h
      refine ⟨List.mem_cons_of_mem a hm, hp, ?_⟩
      intro k hk hkp
      rcases List.mem_cons.mp hk with rfl | hk
      · exact absurd hkp ha
      · exact hmin k hk hkp

/-- Claim C4: `claimNextJob` returns `none` exactly when no pending job
exists; otherwise it picks a pending job minimal under (priority
ascending, createdAt ascending), marks it `processing`, increments its
`attempts`, and returns the updated record; and on the concrete store
with priorities [5, 1, 1] inserted as A, B, C, successive claims return
B, then C, then A. -/
theorem claimNext_spec (now : Nat) (s : List Job) :
    ((claimNextJob now s).1 = none ↔ ∀ j ∈ s, j.status ≠ .pending) ∧
    (∀ j2, (claimNextJob now s).1 = some j2 →
      ∃ j, j ∈ s ∧ j.status = .pending ∧ (∀ k ∈ s, k.status = .pending → jobLE j k) ∧
        j2 = applyClaim now j ∧ j2.status = .processing ∧ j2.attempts = j.attempts + 1) ∧
    ((claimNextJob 10 store0).1 = some (applyClaim 10 jobB) ∧
     (claimNextJob 11 (claimNextJob 10 store0).2).1 = some (applyClaim 11 jobC) ∧
     (claimNextJob 12 (claimNextJob 11 (claimNextJob 10 store0).2).2).1
       = some (applyClaim 12 jobA)) := by
  refine ⟨?_, ?_, ?_⟩
  · unfold claimNextJob
    cases hsel : selectPending s with
    | none => simpa using (selectPending_none_iff s).mp hsel
    | some j =>
      simp only [hsel]
      obtain ⟨hm, hp, _⟩ := selectPending_spec s j hsel
      simp
      exact ⟨j, hm, hp⟩
  · intro j2 h2
    unfold claimNextJob at h2
    cases hsel : selectPending s with
    | none => rw [hsel] at h2; simp at h2
    | some j =>
      rw [hsel] at h2
      simp at h2
      obtain ⟨hm, hp, hmin⟩ := selectPending_spec s j hsel
      rw [← h2]
      exact ⟨j, hm, hp, hmin, rfl, rfl, rfl⟩
  · refine ⟨by decide, by decide, by decide⟩


/-- Witness for `claimNext_spec`: the first claim on the concrete store
instantiates the minimality clause at job B. -/
theorem claimNext_spec_witness :
    ∃ j, j ∈ store0 ∧ j.status = JobStatus.pending ∧
      (∀ k ∈ store0, k.status = JobStatus.pending → jobLE j k) ∧
      applyClaim 10 jobB = applyClaim 10 j ∧
      (applyClaim 10 jobB).status = JobStatus.processing ∧
      (applyClaim 10 jobB).attempts = j.attempts + 1 :=
  (claimNext_spec 10 store0).2.1 (applyClaim 10 jobB) (by decide)

/-- Freshly inserted jobs satisfy the engine invariant. -/
theorem engineInv_init (j0 : Job) (h0s : j0.status = .pending) (h0a : j0.attempts = 0) :
    engineInv j0 := by
  refine ⟨fun _ => Or.inl h0a, ?_, ?_, ?_⟩ <;> intro hs <;> rw [h0s] at hs <;> cases hs

/-- Attempts never decrease across an engine operation. -/
theorem engineStep_mono (a b : Job) (h : EngineStep a b) : a.attempts ≤ b.attempts := by
  cases h with
  | claim now _ hp =>
    simp [applyClaim]
  | write now _ env hp =>
    rcases (execute_single_write a env).1 with ⟨r, hw, _⟩ | ⟨m, hw, _⟩ <;>
      rw [hw] <;> simp [applyWrite]

/-- The engine invariant is preserved by every engine operation. -/
theorem engineStep_inv (a b : Job) (h : EngineStep a b) (ha : engineInv a) : engineInv b := by
  cases h with
  | claim now _ hp =>
    have h0 := ha.1 hp
    refine ⟨?_, ?_, ?_, ?_⟩ <;> intro hs
    · exact absurd hs (by simp [applyClaim])
    · have h2 : (applyClaim now a).attempts = a.attempts + 1 := by simp [applyClaim]
      omega
    · exact absurd hs (by simp [applyClaim])
    · exact absurd hs (by simp [applyClaim])
  | write now _ env hp =>
    have h1 := ha.2.1 hp
    rcases (execute_single_write a env).1 with ⟨r, hw, _⟩ | ⟨m, hw, _⟩
    · rw [hw]
      refine ⟨?_, ?_, ?_, ?_⟩ <;> intro hs
      · exact absurd hs (by simp [applyWrite])
      · exact absurd hs (by simp [applyWrite])
      · have h2 : (applyWrite now a (.complete r)).attempts = a.attempts := by
          simp [applyWrite]
        omega
      · exact absurd hs (by simp [applyWrite])
    · rw [hw]
      rcases h1 with h1 | h1
      · have hst : retryStatus a.attempts = .pending := by
          rw [h1]; decide
        refine ⟨?_, ?_, ?_, ?_⟩ <;> intro hs
        · have h2 : (applyWrite now a (.failWrite (retryStatus a.attempts) m)).attempts
              = a.attempts + 1 := by simp [applyWrite]
          omega
        · exact absurd hs (by simp [applyWrite, hst])
        · exact absurd hs (by simp [applyWrite, hst])
        · exact absurd hs (by simp [applyWrite, hst])
      · have hst : retryStatus a.attempts = .failed := by
          rw [h1]; decide
        refine ⟨?_, ?_, ?_, ?_⟩ <;> intro hs
        · exact absurd hs (by simp [applyWrite, hst])
        · exact absurd hs (by simp [applyWrite, hst])
        · exact absurd hs (by simp [applyWrite, hst])
        · constructor
          · have h2 : (applyWrite now a (.failWrite (retryStatus a.attempts) m)).attempts
                = a.attempts + 1 := by simp [applyWrite]
            omega
          · simp [applyWrite]

/-- The engine invariant holds in every reachable state. -/
theorem engineReach_inv (a b : Job) (h : EngineReach a b) (ha : engineInv a) :
    engineInv b := by
  induction h with
  | refl => exact ha
  | tail _ hstep ih => exact engineStep_inv _ _ hstep ih

/-- The concrete trace of `pendJob` against the always-500 target is
reachable: claim, failure write (requeue), claim, failure write
(terminal). -/
theorem reach_pendJob_trace4 : EngineReach pendJob trace4 := by
  have s1 : EngineStep pendJob trace1 := EngineStep.claim 1 pendJob (by decide)
  have s2 : EngineStep trace1 trace2 := EngineStep.write 2 trace1 env500 (by decide)
  have s3 : EngineStep trace2 trace3 := EngineStep.claim 3 trace2 (by decide)
  have s4 : EngineStep trace3 trace4 := EngineStep.write 4 trace3 env500 (by decide)
  exact Relation.ReflTransGen.tail
    (Relation.ReflTransGen.tail
      (Relation.ReflTransGen.tail (Relation.ReflTransGen.single s1) s2) s3) s4

/-- Claim C1, counterexample: attempts is also incremented by every
failure write (worker.ts lines 140-142), in addition to the claim-time
increment, so a job that starts pending with 0 attempts reaches a state
with `attempts = 4 > maxAttempts = 3` after just two claims of the
always-500 trace — the claimed bound `attempts ≤ maxAttempts` is false,
as is "incremented exactly once per claim and at no other point". -/
theorem attempts_exceed_cex :
    EngineReach pendJob trace4 ∧ pendJob.attempts = 0 ∧ pendJob.status = .pending ∧
    trace4.attempts = 4 ∧ maxAttempts = 3 ∧
    trace2.attempts = trace1.attempts + 1 :=
  ⟨reach_pendJob_trace4, by decide, by decide, by decide, by decide, by decide⟩

/-- Claim C1 (amended): across any sequence of engine operations the
stored attempts value never decreases, but it is incremented once per
claim AND once more per failure write (complete writes leave it
unchanged), so for a job created with `attempts = 0` it is bounded by
`maxAttempts + 1 = 4`, not by `maxAttempts`. -/
theorem attempts_monotone_bounded (j0 j : Job)
    (h0s : j0.status = .pending) (h0a : j0.attempts = 0) (h : EngineReach j0 j) :
    j.attempts ≤ maxAttempts + 1 ∧
    (∀ a b, EngineStep a b → a.attempts ≤ b.attempts) ∧
    (∀ now a, (applyClaim now a).attempts = a.attempts + 1) ∧
    (∀ now a r, (applyWrite now a (.complete r)).attempts = a.attempts) ∧
    (∀ now a st m, (applyWrite now a (.failWrite st m)).attempts = a.attempts + 1) := by
  refine ⟨?_, engineStep_mono, fun now a => by simp [applyClaim],
          fun now a r => by simp [applyWrite], fun now a st m => by simp [applyWrite]⟩
  have hinv := engineReach_inv j0 j h (engineInv_init j0 h0s h0a)
  obtain ⟨hp, hpr, hc, hf⟩ := hinv
  show j.attempts ≤ 4
  cases hstatus : j.status with
  | pending => have := hp hstatus; omega
  | processing => have := hpr hstatus; omega
  | completed => have := hc hstatus; omega
  | failed => have := hf hstatus; omega

/-- Witness for `attempts_monotone_bounded` at the end of the concrete
always-500 trace, where the bound is attained. -/
theorem attempts_monotone_bounded_witness :
    trace4.attempts ≤ maxAttempts + 1 ∧
    (∀ a b, EngineStep a b → a.attempts ≤ b.attempts) ∧
    (∀ now a, (applyClaim now a).attempts = a.attempts + 1) ∧
    (∀ now a r, (applyWrite now a (.complete r)).attempts = a.attempts) ∧
    (∀ now a st m, (applyWrite now a (.failWrite st m)).attempts = a.attempts + 1) :=
  attempts_monotone_bounded pendJob trace4 (by decide) (by decide) reach_pendJob_trace4

/-- Claim C2, counterexample: on the always-500 trace with
`maxAttempts = 3` the job ends `failed` with `attempts = 4 ≠ 3` after
only two executions (pending → processing → pending → processing →
failed), not the claimed three executions ending with `attempts = 3`;
the error message does contain "500". -/
theorem failed_attempts_cex :
    EngineReach pendJob trace4 ∧ trace4.status = .failed ∧
    ¬trace4.attempts = maxAttempts ∧
    trace1.status = .processing ∧ trace2.status = .pending ∧
    trace3.status = .processing ∧
    ∃ m, trace4.errorMessage = some m ∧ strSub "500" m = true :=
  ⟨reach_pendJob_trace4, by decide, by decide, by decide, by decide, by decide,
   ⟨httpFailureMessage 500 "Internal Server Error", by decide, by decide⟩⟩

/-- Claim C2 (amended): whenever the engine reaches `status = failed`
for a job created with `attempts = 0`, the stored attempts equals
`maxAttempts + 1 = 4` (each of the two failed executions added two
increments: one at claim, one at the failure write) and `errorMessage`
is set; the always-500 job with `maxAttempts = 3` passes through two
executions — pending → processing → pending → processing → failed —
and ends with `attempts = 4` and an error message containing "500". -/
theorem failed_implies_exhausted (j0 j : Job)
    (h0s : j0.status = .pending) (h0a : j0.attempts = 0) (h : EngineReach j0 j)
    (hf : j.status = .failed) :
    (j.attempts = maxAttempts + 1 ∧ j.errorMessage ≠ none) ∧
    (trace1.status = .processing ∧ trace2.status = .pending ∧
     trace3.status = .processing ∧ trace4.status = .failed ∧
     trace4.attempts = maxAttempts + 1 ∧
     ∃ m, trace4.errorMessage = some m ∧ strSub "500" m = true) := by
  constructor
  · have hinv := engineReach_inv j0 j h (engineInv_init j0 h0s h0a)
    exact hinv.2.2.2 hf
  · exact ⟨by decide, by decide, by decide, by decide, by decide,
      ⟨httpFailureMessage 500 "Internal Server Error", by decide, by decide⟩⟩

/-- Witness for `failed_implies_exhausted` at the concrete trace. -/
theorem failed_implies_exhausted_witness :
    (trace4.attempts = maxAttempts + 1 ∧ trace4.errorMessage ≠ none) ∧
    (trace1.status = .processing ∧ trace2.status = .pending ∧
     trace3.status = .processing ∧ trace4.status = .failed ∧
     trace4.attempts = maxAttempts + 1 ∧
     ∃ m, trace4.errorMessage = some m ∧ strSub "500" m = true) :=
  failed_implies_exhausted pendJob trace4 (by decide) (by decide)
    reach_pendJob_trace4 (by decide)


/-- Claim C6: the in-flight counter is incremented when an execution is
launched (only under the capacity guard of the `runTick` loop) and
decremented on every exit path of the execution, so from an idle start
with any number of pending jobs, every reachable state of the
poll/dispatch/execute step relation has at most `maxConcurrent = 5`
executions in flight. -/
theorem inflight_bounded (n : Nat) (s : DispatchState)
    (h : Relation.ReflTransGen DispatchStep ⟨n, 0⟩ s) :
    s.inFlight ≤ maxConcurrent := by
  have key : ∀ a b : DispatchState, DispatchStep a b →
      a.inFlight ≤ maxConcurrent → b.inFlight ≤ maxConcurrent := by
    intro a b hstep hle
    cases hstep with
    | launch hcap hpend => exact hcap
    | finish => exact le_trans (Nat.sub_le _ _) hle
  induction h with
  | refl => exact Nat.zero_le _
  | tail _ hstep ih => exact key _ _ hstep ih

/-- Witness for `inflight_bounded`: the idle start with 100 pending
jobs. -/
theorem inflight_bounded_witness :
    (⟨100, 0⟩ : DispatchState).inFlight ≤ maxConcurrent :=
  inflight_bounded 100 ⟨100, 0⟩ Relation.ReflTransGen.refl

/-- Claim C8: starting the poller twice equals starting it once and a
started poller is left unchanged by `startWorker`; stopping twice equals
stopping once and a stopped poller is left unchanged by `stopWorker`,
while stopping a started poller clears the timer and the tick-tracking
flag; and the one-live-timer invariant is preserved by both operations,
so a started poller always owns exactly one timer. -/
theorem start_stop_idempotent :
    (∀ s, startWorker (startWorker s) = startWorker s) ∧
    (∀ s, s.hasPoller = true → startWorker s = s) ∧
    (∀ s, stopWorker (stopWorker s) = stopWorker s) ∧
    (∀ s, s.hasPoller = false → stopWorker s = s) ∧
    (∀ s, s.hasPoller = true →
      stopWorker s = { timers := s.timers - 1, hasPoller := false, isTickRunning := false }) ∧
    (∀ s, timerInv s → timerInv (startWorker s) ∧ timerInv (stopWorker s)) ∧
    (∀ s, timerInv s → (startWorker s).timers = 1) := by
  refine ⟨?_, ?_, ?_, ?_, ?_, ?_, ?_⟩
  · intro s
    by_cases h : s.hasPoller = true <;> simp [startWorker, h]
  · intro s h
    simp [startWorker, h]
  · intro s
    by_cases h : s.hasPoller = true <;> simp [stopWorker, h]
  · intro s h
    simp [stopWorker, h]
  · intro s h
    simp [stopWorker, h]
  · intro s h
    unfold timerInv at h
    by_cases hp : s.hasPoller = true
    · constructor
      · simpa [startWorker, hp, timerInv] using h
      · simp [hp] at h
        simp [stopWorker, hp, timerInv, h]
    · constructor
      · simp [hp] at h
        simp [startWorker, hp, timerInv, h]
      · simpa [stopWorker, hp, timerInv] using h
  · intro s h
    unfold timerInv at h
    by_cases hp : s.hasPoller = true
    · simpa [startWorker, hp] using h
    · simp [hp] at h
      simp [startWorker, hp, h]

/-- Witness for `start_stop_idempotent` at the initial poller state. -/
theorem start_stop_idempotent_witness :
    stopWorker ⟨0, false, false⟩ = (⟨0, false, false⟩ : PollerState) ∧
    (startWorker ⟨0, false, false⟩).timers = 1 :=
  ⟨start_stop_idempotent.2.2.2.1 ⟨0, false, false⟩ rfl,
   start_stop_idempotent.2.2.2.2.2.2 ⟨0, false, false⟩ rfl⟩

end QueueWizard
